import Mathlib

/-!
Shallow embedding of the VK data-collection and analysis program
(modules: the VK collector, the data analyzer, the web interface) and
proofs about the behaviour of its collection loop, request layer,
keyword extraction, topic counting and web concurrency guard.

Conventions of the embedding:
* Unix timestamps are `Int`; an absent date bound is `none`, and Python
  truthiness of an integer (`0` is falsy) is modelled by `otruthy`.
* The remote VK service is a value of type `VKEnv`: the outcome of a
  `groups.getById` call, and the outcome of each `wall.get` /
  `wall.getComments` call as a function of the request parameters.
* The `while` loop of the collection routine is expressed with an
  explicit fuel argument; each iteration that recurses consumes one unit
  of fuel and strictly increases `postsCollected`, so fuel
  `maxPosts + 1` is never exhausted before the loop condition fails.
* Instrumentation that the source exposes only as observable behaviour
  (number of `groups.getById` requests, the sequence of wall batches
  fetched, the comment-endpoint calls issued) is threaded through the
  definitions as extra outputs, without changing the computed data.
-/

namespace VK

/-- A wall post as consumed by the collector: numeric `id`, Unix
timestamp `date`, `text`, and the reported `comments.count`. A missing
or null id is modelled as `0`, matching the falsy check in the source. -/
structure Post where
  id : Int
  date : Int
  text : String
  commentsCount : Nat
deriving DecidableEq

/-- A comment; `parentPostId` is the tag added by the collection loop
(absent, i.e. `none`, on a freshly fetched comment). -/
structure Comment where
  id : Int
  date : Int
  text : String
  parentPostId : Option Int
deriving DecidableEq

/-- The slice of a `groups.getById` record the collector reads: the
numeric group id, `none` when the `id` key is absent. -/
structure GroupInfo where
  id : Option Int
deriving DecidableEq

/-- Parsed JSON `response` object of a `wall.get` call: the `items` key,
`none` when absent. -/
structure WallPayload where
  items : Option (List Post)
deriving DecidableEq

/-- Parsed JSON `response` object of a `wall.getComments` call. -/
structure CommentsPayload where
  items : Option (List Comment)
deriving DecidableEq

/-- Outcome of one HTTP request, as distinguished by the request layer
of the source: a transport error (connection failure or non-2xx status,
both raised as a requests exception), a malformed JSON body, a JSON body
carrying an `error` object, or a well-formed body whose `response` field
may be absent. -/
inductive ApiOutcome (α : Type) where
  | transportError
  | jsonDecodeError
  | errorBody (code : Nat) (msg : String)
  | success (response : Option α)

/-- The outcomes on which the source's request routine takes one of its
three exception / error branches. -/
def ApiOutcome.isFailure {α : Type} : ApiOutcome α → Bool
  | .success _ => false
  | _ => true

/-- The request routine of the collector: on a transport error, a JSON
decode error, or a body containing an `error` field it logs and returns
the empty dictionary (modelled by the `empty` value of the payload
type); otherwise it returns the `response` field, or the empty
dictionary when that field is absent. -/
def make_request {α : Type} (empty : α) : ApiOutcome α → α
  | .transportError => empty
  | .jsonDecodeError => empty
  | .errorBody _ _ => empty
  | .success r => r.getD empty

/-- Python truthiness of an optional integer: `None` and `0` are falsy. -/
def otruthy : Option Int → Bool
  | none => false
  | some v => v != 0

/-- `start_timestamp and post_date < start_timestamp`: the condition on
which the batch scan stops. -/
def startBreak (st : Option Int) (d : Int) : Bool :=
  otruthy st && decide (d < st.iget)

/-- `end_timestamp and post_date > end_timestamp`: the condition on
which an item is skipped. -/
def endSkip (en : Option Int) (d : Int) : Bool :=
  otruthy en && decide (en.iget < d)

/-- `start_timestamp and post_date >= start_timestamp`: the condition on
which an item is retained when a lower bound is configured. -/
def startKeep (st : Option Int) (d : Int) : Bool :=
  otruthy st && decide (st.iget ≤ d)

/-- The per-batch date filter of the collection loop. Returns the
retained items, the number of increments of the `posts_in_period`
counter performed while scanning, and whether the scan stopped early on
an item older than the lower bound. -/
def filterBatch (st en : Option Int) : List Post → List Post × Nat × Bool
  | [] => ([], 0, false)
  | p :: ps =>
    if startBreak st p.date then ([], 0, true)
    else if endSkip en p.date then filterBatch st en ps
    else if startKeep st p.date then
      let r := filterBatch st en ps
      (p :: r.1, r.2.1 + 1, r.2.2)
    else if !otruthy st then
      let r := filterBatch st en ps
      (p :: r.1, r.2.1 + 1, r.2.2)
    else filterBatch st en ps

/-- `group_id.isdigit()`. -/
def isDigitStr (s : String) : Bool :=
  !s.toList.isEmpty && s.toList.all Char.isDigit

/-- The group identifier needs an API lookup exactly when it is neither
all digits nor written with a leading minus sign. -/
def needsResolution (gid : String) : Bool :=
  !isDigitStr gid && !(gid.toList.head? == some '-')

/-- The remote VK service against which one collection run executes:
outcome of the group lookup, and the outcome of each wall / comments
request as a function of the request parameters. -/
structure VKEnv where
  groups_getById : ApiOutcome (List GroupInfo)
  wall_get : Nat → Nat → ApiOutcome WallPayload
  wall_getComments : Int → Nat → Nat → ApiOutcome CommentsPayload

/-- `groups.getById` wrapper: first element of the response list when
nonempty, the empty dictionary (`none`) otherwise. One API lookup per
invocation. -/
def get_group_info (env : VKEnv) : Option GroupInfo :=
  (make_request [] env.groups_getById).head?

/-- The group-resolution step performed at the top of every wall fetch
and every comments fetch: returns whether a usable numeric id was
obtained and the number of `groups.getById` requests issued. -/
def resolveGroup (env : VKEnv) (gid : String) : Bool × Nat :=
  if needsResolution gid then
    match get_group_info env with
    | some gi => (gi.id.isSome, 1)
    | none => (false, 1)
  else (true, 0)

/-- `wall.get` wrapper: resolves the group (every invocation), caps the
requested count at 100, and returns the `items` of the response, or the
empty list when the request failed, the group could not be resolved, or
`items` is absent. Second component: `groups.getById` requests issued. -/
def get_wall_posts (env : VKEnv) (gid : String) (count offset : Nat) :
    List Post × Nat :=
  let r := resolveGroup env gid
  if r.1 then
    (((make_request ⟨none⟩ (env.wall_get (min count 100) offset)).items).getD [], r.2)
  else ([], r.2)

/-- `wall.getComments` wrapper, same shape as the wall fetch. -/
def get_post_comments (env : VKEnv) (gid : String) (postId : Int)
    (count offset : Nat) : List Comment × Nat :=
  let r := resolveGroup env gid
  if r.1 then
    (((make_request ⟨none⟩ (env.wall_getComments postId (min count 100) offset)).items).getD [], r.2)
  else ([], r.2)

/-- State of the collection loop, together with the instrumentation:
`lookups` counts `groups.getById` requests issued from inside the loop,
`batches` records the items list returned by each wall fetch in order. -/
structure LoopState where
  allPosts : List Post
  postsCollected : Nat
  offset : Nat
  postsInPeriod : Nat
  lookups : Nat
  batches : List (List Post)
deriving DecidableEq

/-- The state after one full iteration of the collection loop: the
batch fetched at the current offset is recorded, its retained part and
the counter increments are accumulated, and the cursor advances by the
whole batch length. -/
def nextState (env : VKEnv) (gid : String) (maxPosts : Nat)
    (st en : Option Int) (s : LoopState) : LoopState :=
  let pr := get_wall_posts env gid (min 100 (maxPosts - s.postsCollected)) s.offset
  let f := filterBatch st en pr.1
  { allPosts := s.allPosts ++ f.1,
    postsCollected := s.postsCollected + pr.1.length,
    offset := s.offset + pr.1.length,
    postsInPeriod := s.postsInPeriod + f.2.1,
    lookups := s.lookups + pr.2,
    batches := s.batches ++ [pr.1] }

/-- The state on which the loop stops inside an iteration: the fetched
batch is recorded and the lookup count updated, nothing else changes. -/
def stopState (env : VKEnv) (gid : String) (maxPosts : Nat)
    (s : LoopState) : LoopState :=
  let pr := get_wall_posts env gid (min 100 (maxPosts - s.postsCollected)) s.offset
  { s with lookups := s.lookups + pr.2, batches := s.batches ++ [pr.1] }

/-- The `while posts_collected < max_posts` loop of the collection
routine, with explicit fuel. Each iteration fetches one batch; an empty
batch stops the loop, a batch whose filtered part is empty while a
lower bound is configured stops the loop, and otherwise the retained
items and the counters are accumulated and the loop continues. -/
def collectPostsFuel (env : VKEnv) (gid : String) (maxPosts : Nat)
    (st en : Option Int) : Nat → LoopState → LoopState
  | 0, s => s
  | fuel + 1, s =>
    if s.postsCollected < maxPosts then
      let pr := get_wall_posts env gid (min 100 (maxPosts - s.postsCollected)) s.offset
      if pr.1.isEmpty then stopState env gid maxPosts s
      else if (filterBatch st en pr.1).1.isEmpty && otruthy st then
        stopState env gid maxPosts s
      else
        collectPostsFuel env gid maxPosts st en fuel (nextState env gid maxPosts st en s)
    else s

/-- The comment-collection pass: for each retained post with a truthy id
and a positive reported comment count, issue one comments fetch
(`count = 100`, `offset = 0`), tag every fetched comment with the
parent post id, and concatenate. Also returns the `groups.getById`
count and the log of comment-endpoint calls `(post_id, count, offset)`. -/
def collectComments (env : VKEnv) (gid : String) :
    List Post → List Comment × Nat × List (Int × Nat × Nat)
  | [] => ([], 0, [])
  | p :: ps =>
    if p.id != 0 && decide (0 < p.commentsCount) then
      let cr := get_post_comments env gid p.id 100 0
      let tagged := cr.1.map (fun c => { c with parentPostId := some p.id })
      let rest := collectComments env gid ps
      (tagged ++ rest.1, cr.2 + rest.2.1, (p.id, 100, 0) :: rest.2.2)
    else collectComments env gid ps

/-- The dictionary returned by the collection routine. -/
structure ParseResult where
  groupInfo : Option GroupInfo
  posts : List Post
  comments : List Comment
  totalPosts : Nat
  totalComments : Nat
  startDate : Option Int
  endDate : Option Int
  postsInPeriod : Nat
deriving DecidableEq

/-- Result of one collection run together with its observable request
behaviour. -/
structure RunOutput where
  result : ParseResult
  lookups : Nat
  wallBatches : List (List Post)
  commentLog : List (Int × Nat × Nat)
deriving DecidableEq

/-- The full collection routine: one unconditional group-info request,
the batch loop, then (when requested) the comment pass over the
retained posts, assembled into the result dictionary. `st`/`en` are the
configured date bounds already converted to Unix timestamps. -/
def parse_group_data (env : VKEnv) (gid : String) (maxPosts : Nat)
    (includeComments : Bool) (st en : Option Int) : RunOutput :=
  let gi := get_group_info env
  let s := collectPostsFuel env gid maxPosts st en (maxPosts + 1)
    { allPosts := [], postsCollected := 0, offset := 0, postsInPeriod := 0,
      lookups := 0, batches := [] }
  let cr := if includeComments then collectComments env gid s.allPosts
            else ([], 0, [])
  { result :=
      { groupInfo := gi, posts := s.allPosts, comments := cr.1,
        totalPosts := s.allPosts.length, totalComments := cr.1.length,
        startDate := st, endDate := en, postsInPeriod := s.postsInPeriod },
    lookups := 1 + s.lookups + cr.2.1,
    wallBatches := s.batches,
    commentLog := cr.2.2 }

/-- A service that serves a fixed feed of posts slice-by-slice (the feed
is ordered as the group wall returns it) and, per post id, a fixed list
of comments slice-by-slice. -/
def mkEnv (gi : ApiOutcome (List GroupInfo)) (feed : List Post)
    (cs : Int → List Comment) : VKEnv :=
  { groups_getById := gi,
    wall_get := fun c o => .success (some ⟨some ((feed.drop o).take c)⟩),
    wall_getComments := fun pid c o => .success (some ⟨some (((cs pid).drop o).take c)⟩) }

/-! ### The data analyzer: keyword extraction and topic counting -/

/-- Python `str.lower` restricted to the alphabets the analyzer's token
and word classes recognise: ASCII A-Z and Cyrillic А-Я / Ё map to their
lowercase forms, every other character is unchanged. -/
def toLowerPy (c : Char) : Char :=
  if 'A' ≤ c && c ≤ 'Z' then Char.ofNat (c.toNat + 32)
  else if 'А' ≤ c && c ≤ 'Я' then Char.ofNat (c.toNat + 32)
  else if c = 'Ё' then 'ё'
  else c

/-- A whole string lowered character by character. -/
def lowerText (s : String) : String := String.mk (s.toList.map toLowerPy)

/-- `' '.join(...)` over a list of texts, as a character list. -/
def joinSpace : List String → List Char
  | [] => []
  | [t] => t.toList
  | t :: ts => t.toList ++ ' ' :: joinSpace ts

/-- The character class of the keyword tokenizer: Cyrillic and Latin
letters only. -/
def isKeywordChar (c : Char) : Bool :=
  ('a' ≤ c && c ≤ 'z') || ('A' ≤ c && c ≤ 'Z') ||
  ('а' ≤ c && c ≤ 'я') || ('А' ≤ c && c ≤ 'Я') || c = 'ё' || c = 'Ё'

/-- A word character (letter, digit or underscore), for the word
patterns and word boundaries used by the analyzer. -/
def isPyWordChar (c : Char) : Bool :=
  isKeywordChar c || c.isDigit || c = '_'

/-- The character class of the URL-stripping pattern, written out as the
set of characters its alternatives accept. -/
def isUrlChar (c : Char) : Bool :=
  ('a' ≤ c && c ≤ 'z') || ('A' ≤ c && c ≤ 'Z') || c.isDigit ||
  (0x24 ≤ c.toNat && c.toNat ≤ 0x5F) || c = '!'

/-- After the literal `http`, try to consume `s? :// <urlchar>+`
greedily; returns the remainder on a match. -/
def afterScheme : List Char → Option (List Char)
  | 's' :: ':' :: '/' :: '/' :: c :: cs =>
    if isUrlChar c then some (cs.dropWhile isUrlChar) else none
  | ':' :: '/' :: '/' :: c :: cs =>
    if isUrlChar c then some (cs.dropWhile isUrlChar) else none
  | _ => none

/-- Left-to-right removal of every URL match, with fuel (one unit per
character position advanced; the input length suffices). -/
def removeUrlsF : Nat → List Char → List Char
  | 0, s => s
  | _ + 1, [] => []
  | fuel + 1, 'h' :: 't' :: 't' :: 'p' :: r =>
    match afterScheme r with
    | some rest => removeUrlsF fuel rest
    | none => 'h' :: removeUrlsF fuel ('t' :: 't' :: 'p' :: r)
  | fuel + 1, c :: cs => c :: removeUrlsF fuel cs

def removeUrls (s : List Char) : List Char := removeUrlsF s.length s

/-- Left-to-right removal of every `m<wordchars>+` match (the mention
and hashtag patterns, with `m` the marker character). -/
def removeTagsF (m : Char) : Nat → List Char → List Char
  | 0, s => s
  | _ + 1, [] => []
  | fuel + 1, c :: cs =>
    if c = m then
      match cs with
      | d :: ds =>
        if isPyWordChar d then removeTagsF m fuel (ds.dropWhile isPyWordChar)
        else c :: removeTagsF m fuel cs
      | [] => [c]
    else c :: removeTagsF m fuel cs

def removeTags (m : Char) (s : List Char) : List Char := removeTagsF m s.length s

/-- Maximal runs of keyword characters, in order: the `findall` of the
letter-run pattern. -/
def tokenizeF : Nat → List Char → List (List Char)
  | 0, _ => []
  | _ + 1, [] => []
  | fuel + 1, c :: cs =>
    if isKeywordChar c then
      (c :: cs.takeWhile isKeywordChar) :: tokenizeF fuel (cs.dropWhile isKeywordChar)
    else tokenizeF fuel cs

def tokenize (s : List Char) : List (List Char) := tokenizeF s.length s

/-- The fixed stop-word set of the keyword extractor. -/
def stop_words : List String :=
  ["это", "что", "как", "для", "или", "при", "все", "так", "уже", "еще", "где", "кто",
   "его", "она", "они", "мне", "нас", "вас", "них", "тут", "там", "тоже", "если",
   "чтобы", "когда", "после", "перед", "между", "через", "под", "над", "без", "про",
   "the", "and", "for", "are", "but", "not", "you", "all", "can", "had", "her", "was",
   "one", "our", "out", "day", "get", "has", "him", "his", "how", "man", "new", "now",
   "old", "see", "two", "way", "who", "boy", "did", "its", "let", "put", "say", "she",
   "too", "use"]

/-- The joined text after URL, mention and hashtag removal, in the order
the source applies the three substitutions. -/
def cleanedText (texts : List String) : List Char :=
  removeTags '#' (removeTags '@' (removeUrls (joinSpace texts)))

/-- The token stream of the keyword extractor: clean, lower, split into
letter runs. -/
def keywordTokens (texts : List String) : List String :=
  (tokenize ((cleanedText texts).map toLowerPy)).map (fun w => String.mk w)

/-- Tokens surviving the length and stop-word filters. -/
def filteredWords (texts : List String) (minLength : Nat) : List String :=
  (keywordTokens texts).filter
    (fun w => decide (minLength ≤ w.length) && decide (w ∉ stop_words))

/-- One counting step of the frequency counter: increment an existing
key, or append a new key with count 1 (insertion order preserved). -/
def bump {α : Type} [DecidableEq α] (acc : List (α × Nat)) (w : α) :
    List (α × Nat) :=
  if w ∈ acc.map Prod.fst then
    acc.map (fun p => if p.1 = w then (p.1, p.2 + 1) else p)
  else acc ++ [(w, 1)]

/-- The frequency counter: keys in first-encountered order, each with
its number of occurrences. -/
def counterOf {α : Type} [DecidableEq α] (ws : List α) : List (α × Nat) :=
  ws.foldl bump []

/-- The distinct elements of a list, keeping the first occurrence of
each. -/
def dedupFirst {α : Type} [DecidableEq α] (ws : List α) : List α :=
  ws.foldl (fun acc w => if w ∈ acc then acc else acc ++ [w]) []

/-- Stable insertion into a count-descending list: the new element goes
before every element of equal or smaller count. -/
def insertDesc {α : Type} (x : α × Nat) : List (α × Nat) → List (α × Nat)
  | [] => [x]
  | y :: ys => if x.2 < y.2 then y :: insertDesc x ys else x :: y :: ys

/-- Stable sort by count, descending: the ranking used by
`most_common` and by the descending sort of the topic counts. -/
def sortDesc {α : Type} : List (α × Nat) → List (α × Nat)
  | [] => []
  | x :: xs => insertDesc x (sortDesc xs)

/-- The keyword extractor: frequency-ranked filtered tokens, capped at
`topN`. -/
def extract_keywords (texts : List String) (minLength topN : Nat) :
    List (String × Nat) :=
  (sortDesc (counterOf (filteredWords texts minLength))).take topN

/-- Does `term` occur literally at the head of the text? -/
def matchesHere : List Char → List Char → Bool
  | [], _ => true
  | _ :: _, [] => false
  | a :: ta, b :: tb => a == b && matchesHere ta tb

/-- A word boundary between two (possibly absent) adjacent characters:
exactly one side is a word character. -/
def boundaryB (a b : Option Char) : Bool :=
  (match a with | some x => isPyWordChar x | none => false)
    != (match b with | some x => isPyWordChar x | none => false)

/-- Count of non-overlapping whole-word occurrences of `term`, scanning
left to right with `prev` the character before the current position. -/
def countWWF (term : List Char) : Nat → Option Char → List Char → Nat
  | 0, _, _ => 0
  | _ + 1, _, [] => 0
  | fuel + 1, prev, c :: cs =>
    if !term.isEmpty && matchesHere term (c :: cs) && boundaryB prev (some c) &&
        boundaryB term.getLast? ((c :: cs).drop term.length).head? then
      1 + countWWF term fuel term.getLast? ((c :: cs).drop term.length)
    else countWWF term fuel (some c) cs

def countWW (term text : List Char) : Nat := countWWF term text.length none text

/-- Whole-word, case-respecting mention count of one vocabulary term in
an (already lowered) text. -/
def countMentions (term : String) (text : List Char) : Nat :=
  countWW term.toList text

/-- The fixed vocabulary of technical terms. -/
def tech_terms : List String :=
  ["scada", "plc", "асу", "тп", "кипиа", "контроллер", "датчик", "привод", "модуль",
   "siemens", "schneider", "abb", "omron", "mitsubishi", "allen", "bradley",
   "wincc", "tia", "portal", "step", "codesys", "unity", "vijeo", "citect",
   "modbus", "profibus", "profinet", "ethernet", "rs485", "can", "hart",
   "hmi", "панель", "оператор", "визуализация", "мнемосхема", "тренд",
   "аварийный", "сигнализация", "блокировка", "защита", "автоматика"]

/-- All post text joined, a space, all comment text joined, lowered:
the text the topic analyzer scans. -/
def topicText (postTexts commentTexts : List String) : List Char :=
  (joinSpace postTexts ++ ' ' :: joinSpace commentTexts).map toLowerPy

/-- The technical-term mention table: each vocabulary term with its
whole-word count, terms with no mention dropped, sorted descending by
count (stable), capped at 20. -/
def tech_mentions (postTexts commentTexts : List String) :
    List (String × Nat) :=
  (sortDesc ((tech_terms.map
      (fun term => (term, countMentions term (topicText postTexts commentTexts)))).filter
    (fun p => decide (0 < p.2)))).take 20

/-! ### The web interface: run status and the concurrency guard -/

/-- The shared status dictionary of the web interface. -/
structure ParsingStatus where
  is_running : Bool
  progress : Nat
  message : String
deriving DecidableEq

/-- The HTTP response of the start endpoint: an error response with its
status code, or an acceptance message. -/
inductive StartResponse where
  | rejected (httpStatus : Nat) (error : String)
  | accepted (message : String)
deriving DecidableEq

/-- The start endpoint. It reads the shared status and answers: busy →
400 "already running" (no thread spawned); missing token → 400; else it
spawns the worker thread and answers accepted. The route itself never
writes the shared status — only the spawned worker does, later. Second
component: whether a worker thread was spawned. -/
def start_parsing (st : ParsingStatus) (hasToken : Bool) :
    StartResponse × Bool :=
  if st.is_running then
    (.rejected 400 "Парсинг уже выполняется", false)
  else if !hasToken then
    (.rejected 400 "Требуется токен доступа", false)
  else
    (.accepted "Парсинг запущен", true)

/-- Web-interface state: the shared status dictionary, the number of
spawned worker threads that have not yet performed their initial status
update, and the number of workers past that update and not yet
finished. `started + running` is the number of collection runs alive. -/
structure WebState where
  status : ParsingStatus
  started : Nat
  running : Nat
deriving DecidableEq

/-- The atomic steps of the interleaving model: a start request hits
the route (which only reads the status), a spawned worker performs its
initial status update (setting the running flag), or a running worker
finishes — in success or in the error handler, both clearing the flag. -/
inductive WebEvent where
  | request (hasToken : Bool)
  | workerBegin
  | workerEnd (ok : Bool)

def webStep (s : WebState) : WebEvent → WebState
  | .request tok =>
    let r := start_parsing s.status tok
    { s with started := s.started + (if r.2 then 1 else 0) }
  | .workerBegin =>
    if s.started = 0 then s
    else
      { status :=
          { is_running := true, progress := 0, message := "Инициализация парсера..." },
        started := s.started - 1, running := s.running + 1 }
  | .workerEnd ok =>
    if s.running = 0 then s
    else
      { status :=
          { is_running := false, progress := if ok then 100 else 0,
            message := if ok then "Парсинг завершен" else "Ошибка" },
        started := s.started, running := s.running - 1 }

def webInit : WebState :=
  { status := { is_running := false, progress := 0, message := "" },
    started := 0, running := 0 }

def webRun (events : List WebEvent) : WebState := events.foldl webStep webInit

/-- The number of collection runs alive: workers spawned or running,
not yet finished. -/
def aliveRuns (s : WebState) : Nat := s.started + s.running

/-! ### Lemmas about the ranking pipeline -/

theorem mem_insertDesc {α : Type} (x a : α × Nat) (l : List (α × Nat)) :
    a ∈ insertDesc x l ↔ a = x ∨ a ∈ l := by
  induction l with
  | nil => simp [insertDesc]
  | cons y ys ih =>
    simp only [insertDesc]
    split
    · simp only [List.mem_cons, ih]
      tauto
    · simp [List.mem_cons]

theorem pairwise_insertDesc {α : Type} (x : α × Nat) (l : List (α × Nat))
    (h : l.Pairwise (fun a b => b.2 ≤ a.2)) :
    (insertDesc x l).Pairwise (fun a b => b.2 ≤ a.2) := by
  induction l with
  | nil => simp [insertDesc]
  | cons y ys ih =>
    rw [List.pairwise_cons] at h
    simp only [insertDesc]
    split
    · rw [List.pairwise_cons]
      refine ⟨fun b hb => ?_, ih h.2⟩
      rcases (mem_insertDesc x b ys).mp hb with hbx | hby
      · subst hbx; omega
      · exact h.1 b hby
    · rw [List.pairwise_cons]
      refine ⟨fun b hb => ?_, List.pairwise_cons.mpr h⟩
      rcases List.mem_cons.mp hb with hby | hbys
      · subst hby; omega
      · have := h.1 b hbys; omega

theorem sortDesc_pairwise {α : Type} (l : List (α × Nat)) :
    (sortDesc l).Pairwise (fun a b => b.2 ≤ a.2) := by
  induction l with
  | nil => simp [sortDesc]
  | cons x xs ih => exact pairwise_insertDesc x (sortDesc xs) ih

theorem mem_sortDesc {α : Type} (a : α × Nat) (l : List (α × Nat)) :
    a ∈ sortDesc l ↔ a ∈ l := by
  induction l with
  | nil => simp [sortDesc]
  | cons x xs ih =>
    simp only [sortDesc, mem_insertDesc, ih, List.mem_cons]

theorem filter_insertDesc {α : Type} (c : Nat) (x : α × Nat) (l : List (α × Nat)) :
    (insertDesc x l).filter (fun p => decide (p.2 = c))
      = (x :: l).filter (fun p => decide (p.2 = c)) := by
  induction l with
  | nil => rfl
  | cons y ys ih =>
    simp only [insertDesc]
    split
    · by_cases hy : y.2 = c
      · have hx : ¬ x.2 = c := by omega
        simp [List.filter_cons, hy, hx] at ih ⊢
        exact ih
      · simp [List.filter_cons, hy] at ih ⊢
        exact ih
    · rfl

theorem sortDesc_filter {α : Type} (c : Nat) (l : List (α × Nat)) :
    (sortDesc l).filter (fun p => decide (p.2 = c))
      = l.filter (fun p => decide (p.2 = c)) := by
  induction l with
  | nil => rfl
  | cons x xs ih =>
    rw [sortDesc, filter_insertDesc]
    simp only [List.filter_cons, ih]

theorem bump_keys {α : Type} [DecidableEq α] (acc : List (α × Nat)) (w : α) :
    (bump acc w).map Prod.fst
      = (if w ∈ acc.map Prod.fst then acc.map Prod.fst
         else acc.map Prod.fst ++ [w]) := by
  unfold bump
  split
  · rw [List.map_map]
    refine List.map_congr_left (fun p _ => ?_)
    by_cases h : p.1 = w <;> simp [h]
  · rw [List.map_append]
    rfl

theorem counterOf_keys {α : Type} [DecidableEq α] (ws : List α) :
    (counterOf ws).map Prod.fst = dedupFirst ws := by
  suffices h : ∀ (ws : List α) (acc : List (α × Nat)),
      (ws.foldl bump acc).map Prod.fst
        = ws.foldl (fun acc w => if w ∈ acc then acc else acc ++ [w]) (acc.map Prod.fst) by
    exact h ws []
  intro ws
  induction ws with
  | nil => intro acc; rfl
  | cons w ws ih =>
    intro acc
    simp only [List.foldl_cons]
    rw [ih, bump_keys]

theorem dedupFirst_mem {α : Type} [DecidableEq α] (ws : List α) (w : α) :
    w ∈ dedupFirst ws ↔ w ∈ ws := by
  suffices h : ∀ (ws : List α) (acc : List α),
      w ∈ ws.foldl (fun acc w => if w ∈ acc then acc else acc ++ [w]) acc
        ↔ w ∈ acc ∨ w ∈ ws by
    simpa using h ws []
  intro ws
  induction ws with
  | nil => intro acc; simp
  | cons u us ih =>
    intro acc
    simp only [List.foldl_cons, ih, List.mem_cons]
    by_cases hu : u ∈ acc
    · rw [if_pos hu]
      constructor
      · tauto
      · intro h
        rcases h with h | h | h
        · exact Or.inl h
        · exact Or.inl (by rw [h]; exact hu)
        · exact Or.inr h
    · rw [if_neg hu]
      simp only [List.mem_append, List.mem_singleton]
      tauto

theorem counterOf_counts {α : Type} [DecidableEq α] (ws : List α) :
    ∀ p ∈ counterOf ws, p.2 = ws.count p.1 := by
  suffices h : ∀ (ws processed : List α) (acc : List (α × Nat)),
      (∀ p ∈ acc, p.2 = processed.count p.1) →
      (∀ v, v ∈ acc.map Prod.fst ↔ v ∈ processed) →
      ∀ p ∈ ws.foldl bump acc, p.2 = (processed ++ ws).count p.1 by
    intro p hp
    simpa using h ws [] [] (by simp) (by simp) p hp
  intro ws
  induction ws with
  | nil =>
    intro processed acc h1 _ p hp
    simpa using h1 p hp
  | cons w ws ih =>
    intro processed acc h1 h2 p hp
    have hrw : processed ++ w :: ws = (processed ++ [w]) ++ ws := by simp
    rw [hrw]
    refine ih (processed ++ [w]) (bump acc w) ?_ ?_ p hp
    · intro q hq
      unfold bump at hq
      split at hq
      · rcases List.mem_map.mp hq with ⟨r, hr, hrq⟩
        by_cases hr1 : r.1 = w
        · rw [if_pos hr1] at hrq
          subst hrq
          simp only [List.count_append, h1 r hr, hr1]
          simp [List.count_cons]
        · rw [if_neg hr1] at hrq
          subst hrq
          simp only [List.count_append, h1 r hr]
          simp [List.count_cons, hr1]
      · rename_i hnot
        rcases List.mem_append.mp hq with hqa | hqw
        · have hq1 : q.1 ≠ w := fun hh => hnot (hh ▸ List.mem_map.mpr ⟨q, hqa, rfl⟩)
          simp only [List.count_append, h1 q hqa]
          simp [List.count_cons, hq1]
        · rcases List.mem_singleton.mp hqw with rfl
          have hwp : w ∉ processed := fun hw => hnot ((h2 w).mpr hw)
          simp [List.count_append, List.count_eq_zero.mpr hwp, List.count_cons]
    · intro v
      rw [bump_keys]
      split
      · rename_i hin
        rw [h2 v]
        simp only [List.mem_append, List.mem_singleton]
        constructor
        · tauto
        · rintro (h | rfl)
          · exact h
          · exact (h2 v).mp hin
      · simp only [List.mem_append, List.mem_singleton, h2 v]

/-! ### Lemmas about the batch filter and the collection loop -/

theorem filterBatch_pip (st en : Option Int) (l : List Post) :
    (filterBatch st en l).2.1 = (filterBatch st en l).1.length := by
  induction l with
  | nil => rfl
  | cons p ps ih =>
    simp only [filterBatch]
    split
    · rfl
    · split
      · exact ih
      · split
        · simpa using ih
        · split
          · simpa using ih
          · exact ih

theorem filterBatch_mem_lower (en : Option Int) (L : Int) (hL : L ≠ 0)
    (l : List Post) : ∀ p ∈ (filterBatch (some L) en l).1, L ≤ p.date := by
  induction l with
  | nil => simp [filterBatch]
  | cons p ps ih =>
    intro q hq
    simp only [filterBatch] at hq
    split at hq
    · exact absurd hq (List.not_mem_nil q)
    · split at hq
      · exact ih q hq
      · split at hq
        · rename_i hkeep
          simp only [List.mem_cons] at hq
          rcases hq with rfl | hq
          · simp only [startKeep, otruthy, Option.iget, Bool.and_eq_true,
              decide_eq_true_eq] at hkeep
            exact hkeep.2
          · exact ih q hq
        · split at hq
          · rename_i hnost
            simp [otruthy, hL] at hnost
          · exact ih q hq

theorem filterBatch_mem_upper (st : Option Int) (U : Int) (hU : U ≠ 0)
    (l : List Post) : ∀ p ∈ (filterBatch st (some U) l).1, p.date ≤ U := by
  induction l with
  | nil => simp [filterBatch]
  | cons p ps ih =>
    intro q hq
    simp only [filterBatch] at hq
    split at hq
    · exact absurd hq (List.not_mem_nil q)
    · split at hq
      · exact ih q hq
      · rename_i hskip
        simp only [endSkip, otruthy, Option.iget, Bool.and_eq_true, bne_iff_ne,
          decide_eq_true_eq, not_and] at hskip
        split at hq
        · simp only [List.mem_cons] at hq
          rcases hq with rfl | hq
          · have := hskip hU
            omega
          · exact ih q hq
        · split at hq
          · simp only [List.mem_cons] at hq
            rcases hq with rfl | hq
            · have := hskip hU
              omega
            · exact ih q hq
          · exact ih q hq

theorem filterBatch_skip (st en : Option Int) (p : Post) (ps : List Post)
    (hskip : endSkip en p.date = true) (hbr : startBreak st p.date = false) :
    filterBatch st en (p :: ps) = filterBatch st en ps := by
  simp only [filterBatch, hskip, hbr]
  rfl

theorem filterBatch_break (st en : Option Int) (p : Post) (ps : List Post)
    (hbr : startBreak st p.date = true) :
    filterBatch st en (p :: ps) = ([], 0, true) := by
  simp only [filterBatch, hbr]
  rfl

theorem nextState_allPosts (env : VKEnv) (gid : String) (maxPosts : Nat)
    (st en : Option Int) (s : LoopState) :
    (nextState env gid maxPosts st en s).allPosts
      = s.allPosts ++ (filterBatch st en
          (get_wall_posts env gid (min 100 (maxPosts - s.postsCollected)) s.offset).1).1 := rfl

theorem nextState_pip (env : VKEnv) (gid : String) (maxPosts : Nat)
    (st en : Option Int) (s : LoopState) :
    (nextState env gid maxPosts st en s).postsInPeriod
      = s.postsInPeriod + (filterBatch st en
          (get_wall_posts env gid (min 100 (maxPosts - s.postsCollected)) s.offset).1).2.1 := rfl

theorem nextState_lookups (env : VKEnv) (gid : String) (maxPosts : Nat)
    (st en : Option Int) (s : LoopState) :
    (nextState env gid maxPosts st en s).lookups
      = s.lookups
        + (get_wall_posts env gid (min 100 (maxPosts - s.postsCollected)) s.offset).2 := rfl

theorem nextState_batches (env : VKEnv) (gid : String) (maxPosts : Nat)
    (st en : Option Int) (s : LoopState) :
    (nextState env gid maxPosts st en s).batches
      = s.batches
        ++ [(get_wall_posts env gid (min 100 (maxPosts - s.postsCollected)) s.offset).1] := rfl

theorem stopState_allPosts (env : VKEnv) (gid : String) (maxPosts : Nat)
    (s : LoopState) : (stopState env gid maxPosts s).allPosts = s.allPosts := rfl

theorem stopState_pip (env : VKEnv) (gid : String) (maxPosts : Nat)
    (s : LoopState) :
    (stopState env gid maxPosts s).postsInPeriod = s.postsInPeriod := rfl

theorem stopState_lookups (env : VKEnv) (gid : String) (maxPosts : Nat)
    (s : LoopState) :
    (stopState env gid maxPosts s).lookups
      = s.lookups
        + (get_wall_posts env gid (min 100 (maxPosts - s.postsCollected)) s.offset).2 := rfl

theorem stopState_batches (env : VKEnv) (gid : String) (maxPosts : Nat)
    (s : LoopState) :
    (stopState env gid maxPosts s).batches
      = s.batches
        ++ [(get_wall_posts env gid (min 100 (maxPosts - s.postsCollected)) s.offset).1] := rfl

theorem collect_allPosts_pred (env : VKEnv) (gid : String) (maxPosts : Nat)
    (st en : Option Int) (P : Post → Prop)
    (hF : ∀ l, ∀ p ∈ (filterBatch st en l).1, P p) :
    ∀ fuel s, (∀ p ∈ s.allPosts, P p) →
      ∀ p ∈ (collectPostsFuel env gid maxPosts st en fuel s).allPosts, P p := by
  intro fuel
  induction fuel with
  | zero => intro s hs; exact hs
  | succ fuel ih =>
    intro s hs
    simp only [collectPostsFuel]
    split
    · split
      · rw [stopState_allPosts]; exact hs
      · split
        · rw [stopState_allPosts]; exact hs
        · refine ih _ ?_
          rw [nextState_allPosts]
          intro p hp
          rcases List.mem_append.mp hp with h | h
          · exact hs p h
          · exact hF _ p h
    · exact hs

theorem collect_pip (env : VKEnv) (gid : String) (maxPosts : Nat)
    (st en : Option Int) :
    ∀ fuel s, (collectPostsFuel env gid maxPosts st en fuel s).postsInPeriod
        + s.allPosts.length
      = s.postsInPeriod
        + (collectPostsFuel env gid maxPosts st en fuel s).allPosts.length := by
  intro fuel
  induction fuel with
  | zero => intro s; rfl
  | succ fuel ih =>
    intro s
    simp only [collectPostsFuel]
    split
    · split
      · rw [stopState_allPosts, stopState_pip]
      · split
        · rw [stopState_allPosts, stopState_pip]
        · have h := ih (nextState env gid maxPosts st en s)
          have e1 := nextState_allPosts env gid maxPosts st en s
          have e2 := nextState_pip env gid maxPosts st en s
          have e3 := filterBatch_pip st en
            (get_wall_posts env gid (min 100 (maxPosts - s.postsCollected)) s.offset).1
          rw [e1, e2] at h
          simp only [List.length_append] at h
          omega
    · rfl

theorem get_wall_posts_lookups (env : VKEnv) (gid : String) (count offset : Nat)
    (h : needsResolution gid = true) :
    (get_wall_posts env gid count offset).2 = 1 := by
  simp only [get_wall_posts, resolveGroup, h, if_true]
  rcases get_group_info env with _ | gi
  · rfl
  · by_cases hid : gi.id.isSome <;> simp [hid]

theorem collect_lookups (env : VKEnv) (gid : String) (maxPosts : Nat)
    (st en : Option Int) (hres : needsResolution gid = true) :
    ∀ fuel s, (collectPostsFuel env gid maxPosts st en fuel s).lookups
        + s.batches.length
      = s.lookups
        + (collectPostsFuel env gid maxPosts st en fuel s).batches.length := by
  intro fuel
  induction fuel with
  | zero => intro s; rfl
  | succ fuel ih =>
    intro s
    simp only [collectPostsFuel]
    split
    · have hw := get_wall_posts_lookups env gid
        (min 100 (maxPosts - s.postsCollected)) s.offset hres
      split
      · rw [stopState_lookups, stopState_batches]
        simp only [List.length_append, List.length_singleton]
        omega
      · split
        · rw [stopState_lookups, stopState_batches]
          simp only [List.length_append, List.length_singleton]
          omega
        · have h := ih (nextState env gid maxPosts st en s)
          have e1 := nextState_lookups env gid maxPosts st en s
          have e2 := nextState_batches env gid maxPosts st en s
          rw [e1, e2] at h
          simp only [List.length_append, List.length_singleton] at h
          omega
    · rfl

/-! ### Lemmas about the comment pass -/

theorem collectComments_parent (env : VKEnv) (gid : String) :
    ∀ ps, ∀ c ∈ (collectComments env gid ps).1,
      ∃ p, p ∈ ps ∧ c.parentPostId = some p.id ∧ p.id ≠ 0 ∧ 0 < p.commentsCount := by
  intro ps
  induction ps with
  | nil => simp [collectComments]
  | cons p ps ih =>
    intro c hc
    simp only [collectComments] at hc
    split at hc
    · rename_i hcond
      simp only [Bool.and_eq_true, bne_iff_ne, decide_eq_true_eq] at hcond
      rcases List.mem_append.mp hc with h | h
      · rcases List.mem_map.mp h with ⟨c0, _, rfl⟩
        exact ⟨p, List.mem_cons_self p ps, rfl, hcond.1, hcond.2⟩
      · obtain ⟨q, hq, h2⟩ := ih c h
        exact ⟨q, List.mem_cons_of_mem p hq, h2⟩
    · obtain ⟨q, hq, h2⟩ := ih c hc
      exact ⟨q, List.mem_cons_of_mem p hq, h2⟩

theorem collectComments_log (env : VKEnv) (gid : String) :
    ∀ ps, (collectComments env gid ps).2.2
      = (ps.filter (fun p => p.id != 0 && decide (0 < p.commentsCount))).map
          (fun p => (p.id, 100, 0)) := by
  intro ps
  induction ps with
  | nil => rfl
  | cons p ps ih =>
    by_cases hcond : (p.id != 0 && decide (0 < p.commentsCount)) = true
    · simp only [collectComments, hcond, if_true, List.filter_cons, List.map_cons, ih]
    · simp only [collectComments, hcond, if_false, List.filter_cons]
      rw [if_neg (by simp [hcond])]
      exact ih

theorem get_post_comments_lookups (env : VKEnv) (gid : String) (pid : Int)
    (count offset : Nat) (h : needsResolution gid = true) :
    (get_post_comments env gid pid count offset).2 = 1 := by
  simp only [get_post_comments, resolveGroup, h, if_true]
  rcases get_group_info env with _ | gi
  · rfl
  · by_cases hid : gi.id.isSome <;> simp [hid]

theorem collectComments_lookups (env : VKEnv) (gid : String)
    (hres : needsResolution gid = true) :
    ∀ ps, (collectComments env gid ps).2.1
      = (ps.filter (fun p => p.id != 0 && decide (0 < p.commentsCount))).length := by
  intro ps
  induction ps with
  | nil => rfl
  | cons p ps ih =>
    by_cases hcond : (p.id != 0 && decide (0 < p.commentsCount)) = true
    · simp only [collectComments, hcond, if_true, List.filter_cons, List.length_cons,
        ih, get_post_comments_lookups env gid p.id 100 0 hres]
      omega
    · simp only [collectComments, hcond, if_false, List.filter_cons]
      rw [if_neg (by simp [hcond])]
      exact ih

/-! ### Stopping behaviour once the feed has passed below the lower bound -/

theorem collect_stop_after_lower (gi : ApiOutcome (List GroupInfo))
    (feed : List Post) (cs : Int → List Comment) (gid : String)
    (maxPosts : Nat) (en : Option Int) (L : Int)
    (hgid : needsResolution gid = false) (hL : L ≠ 0)
    (hmono : feed.Pairwise (fun a b => b.date ≤ a.date))
    (fuel : Nat) (s : LoopState)
    (hpast : ∃ q ∈ feed.take s.offset, q.date < L) :
    (collectPostsFuel (mkEnv gi feed cs) gid maxPosts (some L) en fuel s).allPosts
        = s.allPosts
    ∧ (collectPostsFuel (mkEnv gi feed cs) gid maxPosts (some L) en fuel s).batches.length
        ≤ s.batches.length + 1 := by
  cases fuel with
  | zero => exact ⟨rfl, Nat.le_succ _⟩
  | succ fuel =>
    simp only [collectPostsFuel]
    split
    · have hbatch : (get_wall_posts (mkEnv gi feed cs) gid
          (min 100 (maxPosts - s.postsCollected)) s.offset).1
        = (feed.drop s.offset).take (min (min 100 (maxPosts - s.postsCollected)) 100) := by
        simp [get_wall_posts, resolveGroup, hgid, mkEnv, make_request]
      split
      · refine ⟨stopState_allPosts _ _ _ _, ?_⟩
        rw [stopState_batches]
        simp
      · split
        · refine ⟨stopState_allPosts _ _ _ _, ?_⟩
          rw [stopState_batches]
          simp
        · exfalso
          rename_i hne hcond
          rcases hb : (get_wall_posts (mkEnv gi feed cs) gid
              (min 100 (maxPosts - s.postsCollected)) s.offset).1 with _ | ⟨h0, t0⟩
          · rw [hb] at hne
            exact hne rfl
          · have hmem : h0 ∈ feed.drop s.offset := by
              have hx : h0 ∈ (feed.drop s.offset).take
                  (min (min 100 (maxPosts - s.postsCollected)) 100) := by
                rw [← hbatch, hb]
                exact List.mem_cons_self h0 t0
              exact List.take_subset _ _ hx
            obtain ⟨q, hqmem, hqL⟩ := hpast
            have hsplit : ∀ a ∈ feed.take s.offset, ∀ b ∈ feed.drop s.offset,
                b.date ≤ a.date := by
              have hm := hmono
              rw [← List.take_append_drop s.offset feed] at hm
              exact (List.pairwise_append.mp hm).2.2
            have hrel : h0.date ≤ q.date := hsplit q hqmem h0 hmem
            have hbreak : startBreak (some L) h0.date = true := by
              simp only [startBreak, otruthy, Option.iget, Bool.and_eq_true,
                bne_iff_ne, decide_eq_true_eq]
              exact ⟨hL, by omega⟩
            rw [hb, filterBatch_break _ _ _ _ hbreak] at hcond
            simp [otruthy, hL] at hcond
    · exact ⟨rfl, Nat.le_succ _⟩

/-! ### Lowercasing commutes with joining -/

theorem joinSpace_lower (l : List String) :
    (joinSpace l).map toLowerPy = joinSpace (l.map lowerText) := by
  induction l with
  | nil => rfl
  | cons t ts ih =>
    cases ts with
    | nil => simp [joinSpace, lowerText, String.toList]
    | cons u us =>
      simp only [List.map_cons] at ih ⊢
      simp only [joinSpace, List.map_append, List.map_cons]
      rw [ih]
      have hsp : toLowerPy ' ' = ' ' := by decide
      have ht : (lowerText t).toList = t.toList.map toLowerPy := rfl
      rw [hsp, ht]

theorem topicText_lower_eq (pt ct : List String) :
    topicText pt ct
      = joinSpace (pt.map lowerText) ++ ' ' :: joinSpace (ct.map lowerText) := by
  unfold topicText
  rw [List.map_append, List.map_cons, joinSpace_lower, joinSpace_lower]
  have hsp : toLowerPy ' ' = ' ' := by decide
  rw [hsp]

/-! ### One-step equations for the collection loop -/

theorem collect_step_continue (env : VKEnv) (gid : String) (maxPosts : Nat)
    (st en : Option Int) (fuel : Nat) (s : LoopState)
    (hlt : s.postsCollected < maxPosts)
    (hne : (get_wall_posts env gid (min 100 (maxPosts - s.postsCollected)) s.offset).1.isEmpty
      = false)
    (hcont : ((filterBatch st en
        (get_wall_posts env gid (min 100 (maxPosts - s.postsCollected)) s.offset).1).1.isEmpty
        && otruthy st) = false) :
    collectPostsFuel env gid maxPosts st en (fuel + 1) s
      = collectPostsFuel env gid maxPosts st en fuel (nextState env gid maxPosts st en s) := by
  simp only [collectPostsFuel]
  rw [if_pos hlt, if_neg (by simp [hne]), if_neg (by simp [hcont])]

theorem collect_step_stop (env : VKEnv) (gid : String) (maxPosts : Nat)
    (st en : Option Int) (fuel : Nat) (s : LoopState)
    (hlt : s.postsCollected < maxPosts)
    (hemp : (get_wall_posts env gid (min 100 (maxPosts - s.postsCollected)) s.offset).1.isEmpty
      = true) :
    collectPostsFuel env gid maxPosts st en (fuel + 1) s
      = stopState env gid maxPosts s := by
  simp only [collectPostsFuel]
  rw [if_pos hlt, if_pos hemp]

/-! ### Concrete runs used as exhibits -/

def postA : Post := ⟨1, 10, "a", 0⟩

def postB : Post := ⟨2, 5, "b", 0⟩

def postC : Post := ⟨3, 0, "", 101⟩

/-- A service with a two-post feed whose dates decrease past the lower
bound used in the exhibits. -/
def envC1 : VKEnv := mkEnv (.success (some [⟨some 77⟩])) [postA, postB] (fun _ => [])

/-- A service with a one-post feed, reached through a non-numeric group
identifier. -/
def envC4 : VKEnv := mkEnv (.success (some [⟨some 5⟩])) [postA] (fun _ => [])

/-- 101 comments stored on the service for post 3: one more than a
single fixed-size page can return. -/
def comsC6 : List Comment := (List.range 101).map (fun i => ⟨Int.ofNat i, 0, "", none⟩)

/-- A service with one retained post whose comment store holds 101
comments. -/
def envC6 : VKEnv :=
  mkEnv (.success (some [⟨some 5⟩])) [postC] (fun pid => if pid = 3 then comsC6 else [])

/-- A service on which every wall fetch fails at the transport level. -/
def envC3 : VKEnv :=
  { groups_getById := .success (some [⟨some 1⟩]),
    wall_get := fun _ _ => .transportError,
    wall_getComments := fun _ _ _ => .success (some ⟨some []⟩) }

/-- A service that answers the first wall fetch with `batch1` and every
later wall fetch with a transport error. -/
def failAfterFirstEnv (batch1 : List Post) (gi : ApiOutcome (List GroupInfo))
    (cf : Int → Nat → Nat → ApiOutcome CommentsPayload) : VKEnv :=
  { groups_getById := gi,
    wall_get := fun _ o => if o = 0 then .success (some ⟨some batch1⟩) else .transportError,
    wall_getComments := cf }

/-- The loop state after the first-batch iteration of the `envC1` run:
one post retained, cursor past both feed posts, the batch recorded. -/
def stateC1 : LoopState := ⟨[postA], 2, 2, 1, 0, [[postA, postB]]⟩

/-! ### Claim theorems -/

/-- C10: for every collection run, the reported `posts_in_period`
counter equals `total_posts`, which is the length of the retained posts
sequence — regardless of the date window, `max_posts`, or where the run
stopped. -/
theorem c10_posts_in_period_eq_total (env : VKEnv) (gid : String) (maxPosts : Nat)
    (includeComments : Bool) (st en : Option Int) :
    (parse_group_data env gid maxPosts includeComments st en).result.postsInPeriod
      = (parse_group_data env gid maxPosts includeComments st en).result.totalPosts
    ∧ (parse_group_data env gid maxPosts includeComments st en).result.totalPosts
      = (parse_group_data env gid maxPosts includeComments st en).result.posts.length := by
  have h := collect_pip env gid maxPosts st en (maxPosts + 1)
    { allPosts := [], postsCollected := 0, offset := 0, postsInPeriod := 0,
      lookups := 0, batches := [] }
  simp only [List.length_nil] at h
  simp only [parse_group_data]
  refine ⟨by omega, ?_⟩
  trivial

/-- C2: with a configured upper bound `U`, no retained post of any run
has timestamp above `U`, and an item later than `U` that does not
trigger the lower-bound stop is skipped while the scan of the same
batch continues unchanged on the remaining items. -/
theorem c2_upper_bound_skip :
    (∀ (env : VKEnv) (gid : String) (maxPosts : Nat) (includeComments : Bool)
        (st : Option Int) (U : Int), U ≠ 0 →
        ∀ p ∈ (parse_group_data env gid maxPosts includeComments st (some U)).result.posts,
          p.date ≤ U)
    ∧ (∀ (st en : Option Int) (p : Post) (ps : List Post),
        endSkip en p.date = true → startBreak st p.date = false →
        filterBatch st en (p :: ps) = filterBatch st en ps) := by
  constructor
  · intro env gid maxPosts incl st U hU p hp
    have hpred := collect_allPosts_pred env gid maxPosts st (some U)
      (fun q => q.date ≤ U) (fun l => filterBatch_mem_upper st U hU l)
      (maxPosts + 1)
      { allPosts := [], postsCollected := 0, offset := 0, postsInPeriod := 0,
        lookups := 0, batches := [] } (by simp)
    simp only [parse_group_data] at hp
    exact hpred p hp
  · exact filterBatch_skip

/-- C2 witness: a concrete retained post lies below the bound, and a
concrete batch scan passes over an item above the bound. -/
theorem c2_upper_bound_skip_witness :
    postA.date ≤ (20 : Int)
    ∧ filterBatch none (some 20) [⟨9, 30, "", 0⟩, postA] = filterBatch none (some 20) [postA] :=
  ⟨c2_upper_bound_skip.1 (mkEnv (.success (some [⟨some 77⟩])) [postA] (fun _ => []))
      "1" 10 false none 20 (by decide) postA (by decide),
   c2_upper_bound_skip.2 none (some 20) ⟨9, 30, "", 0⟩ [postA] (by decide) (by decide)⟩

/-- C1 counterexample: in a run with lower bound 7 over the
monotonically decreasing feed `[postA, postB]`, the scan of the first
fetched batch hits a post older than the bound (the filter reports an
early stop), yet the loop does not stop consuming the run immediately:
it performs a second wall fetch, as the recorded batch list shows. -/
theorem c1_counterexample :
    (filterBatch (some 7) none [postA, postB]).2.2 = true
    ∧ (parse_group_data envC1 "1" 10 false (some 7) none).result.posts = [postA]
    ∧ (parse_group_data envC1 "1" 10 false (some 7) none).wallBatches.length = 2 := by
  exact ⟨by decide, by decide, by decide⟩

/-- C1 (amended): with a configured lower bound `L`, every retained post
of any run has timestamp at least `L`; and on a monotonically decreasing
feed, once the loop's cursor has passed a post older than `L`, the loop
retains nothing further and performs at most one further wall fetch
(rather than stopping with no further fetch, as originally claimed). -/
theorem c1_lower_bound_amended :
    (∀ (env : VKEnv) (gid : String) (maxPosts : Nat) (includeComments : Bool)
        (en : Option Int) (L : Int), L ≠ 0 →
        ∀ p ∈ (parse_group_data env gid maxPosts includeComments (some L) en).result.posts,
          L ≤ p.date)
    ∧ (∀ (gi : ApiOutcome (List GroupInfo)) (feed : List Post) (cs : Int → List Comment)
        (gid : String) (maxPosts : Nat) (en : Option Int) (L : Int) (fuel : Nat)
        (s : LoopState), needsResolution gid = false → L ≠ 0 →
        feed.Pairwise (fun a b => b.date ≤ a.date) →
        (∃ q ∈ feed.take s.offset, q.date < L) →
        (collectPostsFuel (mkEnv gi feed cs) gid maxPosts (some L) en fuel s).allPosts
            = s.allPosts
        ∧ (collectPostsFuel (mkEnv gi feed cs) gid maxPosts (some L) en fuel s).batches.length
            ≤ s.batches.length + 1) := by
  constructor
  · intro env gid maxPosts incl en L hL p hp
    have hpred := collect_allPosts_pred env gid maxPosts (some L) en
      (fun q => L ≤ q.date) (fun l => filterBatch_mem_lower en L hL l)
      (maxPosts + 1)
      { allPosts := [], postsCollected := 0, offset := 0, postsInPeriod := 0,
        lookups := 0, batches := [] } (by simp)
    simp only [parse_group_data] at hp
    exact hpred p hp
  · intro gi feed cs gid maxPosts en L fuel s hgid hL hmono hpast
    exact collect_stop_after_lower gi feed cs gid maxPosts en L hgid hL hmono fuel s hpast

/-- C1 witness: the amended statement applied to the exhibit run — the
retained post is at or above the bound, and from the state reached after
the first batch the loop retains nothing more and adds at most one more
batch. -/
theorem c1_lower_bound_amended_witness :
    (7 : Int) ≤ postA.date
    ∧ ((collectPostsFuel (mkEnv (.success (some [⟨some 77⟩])) [postA, postB] (fun _ => []))
          "1" 10 (some 7) none 9 stateC1).allPosts = stateC1.allPosts
      ∧ (collectPostsFuel (mkEnv (.success (some [⟨some 77⟩])) [postA, postB] (fun _ => []))
          "1" 10 (some 7) none 9 stateC1).batches.length ≤ stateC1.batches.length + 1) :=
  ⟨c1_lower_bound_amended.1 envC1 "1" 10 false none 7 (by decide) postA (by decide),
   c1_lower_bound_amended.2 (.success (some [⟨some 77⟩])) [postA, postB] (fun _ => [])
     "1" 10 none 7 9 stateC1 (by decide) (by decide) (by decide)
     ⟨postB, by decide, by decide⟩⟩

/-- C3 counterexample: a transport error, a malformed body and an
application-level error body all produce the very same return value as
a successful response carrying no data — both at the request layer and
at the wall fetch — so no `TransportError` or `ApiError` reaches the
caller; the failure is hidden, not surfaced. -/
theorem c3_counterexample :
    make_request (⟨none⟩ : WallPayload) .transportError
        = make_request ⟨none⟩ (.success (some ⟨none⟩))
    ∧ make_request (⟨none⟩ : WallPayload) .jsonDecodeError
        = make_request ⟨none⟩ (.success (some ⟨none⟩))
    ∧ make_request (⟨none⟩ : WallPayload) (.errorBody 5 "User authorization failed")
        = make_request ⟨none⟩ (.success (some ⟨none⟩))
    ∧ get_wall_posts envC3 "1" 100 0 = ([], 0) :=
  ⟨rfl, rfl, rfl, by decide⟩

/-- C3 (amended): on every transport failure, malformed JSON body or
error-carrying body, the request routine logs and returns the empty
dictionary; the failure is swallowed rather than raised to the caller. -/
theorem c3_errors_swallowed_amended {α : Type} (empty : α) (o : ApiOutcome α)
    (h : o.isFailure = true) : make_request empty o = empty := by
  cases o with
  | transportError => rfl
  | jsonDecodeError => rfl
  | errorBody c m => rfl
  | success r => simp [ApiOutcome.isFailure] at h

/-- C3 witness: the amended statement at a concrete transport error. -/
theorem c3_errors_swallowed_amended_witness :
    make_request (⟨none⟩ : WallPayload) .transportError = (⟨none⟩ : WallPayload) :=
  c3_errors_swallowed_amended (⟨none⟩ : WallPayload) .transportError rfl

/-- C9 counterexample: the running flag is written only by the spawned
worker, not by the route, so a second start request arriving before the
worker's first status update is accepted as well: after two back-to-back
start requests (no worker step in between) two collection runs are
alive — "at most one collection run active at a time" fails. -/
theorem c9_counterexample :
    start_parsing (webRun [.request true]).status true
        = (.accepted "Парсинг запущен", true)
    ∧ aliveRuns (webRun [.request true, .request true]) = 2 :=
  ⟨by decide, by decide⟩

/-- C9 (amended): whenever the shared status records a run in progress,
a second start request is answered with the explicit 400 "already
running" error and spawns no worker, and the interleaving step for such
a request leaves the state unchanged (nothing queued, nothing launched);
but since only the worker thread sets the running flag, this guard does
not bound the number of simultaneously active runs. -/
theorem c9_guard_amended :
    (∀ (st : ParsingStatus) (tok : Bool), st.is_running = true →
        start_parsing st tok = (.rejected 400 "Парсинг уже выполняется", false))
    ∧ (∀ (s : WebState) (tok : Bool), s.status.is_running = true →
        webStep s (.request tok) = s) := by
  constructor
  · intro st tok h
    simp [start_parsing, h]
  · intro s tok h
    simp [webStep, start_parsing, h]

/-- C9 witness: the guard applied to a concrete busy status and a
concrete busy state. -/
theorem c9_guard_amended_witness :
    start_parsing ⟨true, 50, "x"⟩ true
        = (.rejected 400 "Парсинг уже выполняется", false)
    ∧ webStep ⟨⟨true, 50, "x"⟩, 0, 1⟩ (.request true) = ⟨⟨true, 50, "x"⟩, 0, 1⟩ :=
  ⟨c9_guard_amended.1 ⟨true, 50, "x"⟩ true rfl,
   c9_guard_amended.2 ⟨⟨true, 50, "x"⟩, 0, 1⟩ true rfl⟩

/-- C4 counterexample: a run over a non-numeric group identifier whose
feed needs two wall fetches issues three `groups.getById` requests, not
one — the numeric id is not cached; every fetch re-resolves it. -/
theorem c4_counterexample :
    needsResolution "grp" = true
    ∧ (parse_group_data envC4 "grp" 10 false none none).wallBatches.length = 2
    ∧ (parse_group_data envC4 "grp" 10 false none none).lookups = 3
    ∧ (parse_group_data envC4 "grp" 10 false none none).lookups ≠ 1 :=
  ⟨by decide, by decide, by decide, by decide⟩

/-- C4 (amended): for a non-numeric group identifier, the run resolves
the group once up front for the group info and then again on every wall
fetch and on every comments fetch: the `groups.getById` count is exactly
one plus the number of wall fetches plus (when comments are collected)
the number of comment-eligible retained posts. -/
theorem c4_resolution_per_call_amended (env : VKEnv) (gid : String) (maxPosts : Nat)
    (includeComments : Bool) (st en : Option Int)
    (hres : needsResolution gid = true) :
    (parse_group_data env gid maxPosts includeComments st en).lookups
      = 1 + (parse_group_data env gid maxPosts includeComments st en).wallBatches.length
        + (if includeComments then
            ((parse_group_data env gid maxPosts includeComments st en).result.posts.filter
              (fun p => p.id != 0 && decide (0 < p.commentsCount))).length
          else 0) := by
  simp only [parse_group_data]
  have hloop := collect_lookups env gid maxPosts st en hres (maxPosts + 1)
    { allPosts := [], postsCollected := 0, offset := 0, postsInPeriod := 0,
      lookups := 0, batches := [] }
  simp only [List.length_nil] at hloop
  by_cases hinc : includeComments
  · have hcom := collectComments_lookups env gid hres
      (collectPostsFuel env gid maxPosts st en (maxPosts + 1)
        { allPosts := [], postsCollected := 0, offset := 0, postsInPeriod := 0,
          lookups := 0, batches := [] }).allPosts
    simp only [hinc, if_true]
    omega
  · simp only [hinc, if_false, Bool.false_eq_true]
    omega

/-- C4 witness: the amended count at the exhibit run with comments on. -/
theorem c4_resolution_per_call_amended_witness :
    (parse_group_data envC4 "grp" 10 true none none).lookups
      = 1 + (parse_group_data envC4 "grp" 10 true none none).wallBatches.length
        + (if true then
            ((parse_group_data envC4 "grp" 10 true none none).result.posts.filter
              (fun p => p.id != 0 && decide (0 < p.commentsCount))).length
          else 0) :=
  c4_resolution_per_call_amended envC4 "grp" 10 true none none (by decide)

/-- C6 counterexample: the service stores 101 comments for the single
retained post (reported count 101), yet the run issues exactly one
comment-endpoint call, the fixed first page `(count 100, offset 0)`, and
returns only 100 comments — the comment endpoint is not paginated. -/
theorem c6_counterexample :
    comsC6.length = 101
    ∧ (parse_group_data envC6 "1" 10 true none none).result.comments.length = 100
    ∧ (parse_group_data envC6 "1" 10 true none none).commentLog = [(3, 100, 0)] :=
  ⟨by decide, by decide, by decide⟩

/-- C6 (amended): with comments enabled, the run issues exactly one
first-page comments request `(count 100, offset 0)` per retained post
with a truthy id and nonzero reported comment count (no pagination);
every fetched comment is tagged with its parent post's id, and that id
belongs to a post of the same result with nonzero reported count. -/
theorem c6_comment_linkage_amended (env : VKEnv) (gid : String) (maxPosts : Nat)
    (st en : Option Int) :
    (∀ c ∈ (parse_group_data env gid maxPosts true st en).result.comments,
      ∃ p, p ∈ (parse_group_data env gid maxPosts true st en).result.posts
        ∧ c.parentPostId = some p.id ∧ p.id ≠ 0 ∧ 0 < p.commentsCount)
    ∧ (parse_group_data env gid maxPosts true st en).commentLog
      = ((parse_group_data env gid maxPosts true st en).result.posts.filter
          (fun p => p.id != 0 && decide (0 < p.commentsCount))).map
          (fun p => (p.id, 100, 0)) := by
  constructor
  · intro c hc
    simp only [parse_group_data, if_true] at hc ⊢
    exact collectComments_parent env gid _ c hc
  · simp only [parse_group_data, if_true]
    exact collectComments_log env gid _

/-- C6 witness: linkage applied to the first comment of the exhibit
run. -/
theorem c6_comment_linkage_amended_witness :
    ∃ p, p ∈ (parse_group_data envC6 "1" 10 true none none).result.posts
      ∧ (Comment.mk 0 0 "" (some 3)).parentPostId = some p.id
      ∧ p.id ≠ 0 ∧ 0 < p.commentsCount :=
  (c6_comment_linkage_amended envC6 "1" 10 none none).1 ⟨0, 0, "", some 3⟩ (by decide)

/-- C7: the keyword extractor returns at most `topN` entries; every
entry survives the length and stop-word filters and carries the exact
frequency of its token; the list is sorted by count descending; within
each count class the order is the counter's insertion order (the
filtered entries of the result form an initial segment of the counter's
entries of that count); and the counter's keys are exactly the filtered
tokens in first-encountered order. Determinism and idempotence are
definitional: the extractor is a pure function of the text list. -/
theorem c7_extract_keywords_spec (texts : List String) (minLength topN : Nat) :
    (extract_keywords texts minLength topN).length ≤ topN
    ∧ (∀ p ∈ extract_keywords texts minLength topN,
        minLength ≤ p.1.length ∧ p.1 ∉ stop_words
          ∧ p.2 = (filteredWords texts minLength).count p.1)
    ∧ (extract_keywords texts minLength topN).Pairwise (fun a b => b.2 ≤ a.2)
    ∧ (∀ c, ∃ t, (extract_keywords texts minLength topN).filter (fun p => decide (p.2 = c)) ++ t
        = (counterOf (filteredWords texts minLength)).filter (fun p => decide (p.2 = c)))
    ∧ (counterOf (filteredWords texts minLength)).map Prod.fst
        = dedupFirst (filteredWords texts minLength) := by
  refine ⟨List.length_take_le _ _, ?_, ?_, ?_, counterOf_keys _⟩
  · intro p hp
    have hp1 : p ∈ sortDesc (counterOf (filteredWords texts minLength)) :=
      List.take_subset _ _ hp
    have hp2 : p ∈ counterOf (filteredWords texts minLength) :=
      (mem_sortDesc _ _).mp hp1
    have hkey : p.1 ∈ filteredWords texts minLength := by
      have hmapped : p.1 ∈ (counterOf (filteredWords texts minLength)).map Prod.fst :=
        List.mem_map.mpr ⟨p, hp2, rfl⟩
      rw [counterOf_keys] at hmapped
      exact (dedupFirst_mem _ _).mp hmapped
    have hfil := List.mem_filter.mp hkey
    obtain ⟨-, hcond⟩ := hfil
    simp only [Bool.and_eq_true, decide_eq_true_eq] at hcond
    exact ⟨hcond.1, hcond.2, counterOf_counts _ p hp2⟩
  · exact List.Pairwise.sublist (List.take_sublist _ _) (sortDesc_pairwise _)
  · intro c
    refine ⟨((sortDesc (counterOf (filteredWords texts minLength))).drop topN).filter
      (fun p => decide (p.2 = c)), ?_⟩
    simp only [extract_keywords]
    rw [← List.filter_append, List.take_append_drop, sortDesc_filter]

/-- C7 witness: the filter and frequency facts at a concrete token of a
concrete extraction. -/
theorem c7_extract_keywords_spec_witness :
    3 ≤ ("мир" : String).length ∧ ("мир" : String) ∉ stop_words
      ∧ 2 = (filteredWords ["привет мир мир"] 3).count "мир" :=
  (c7_extract_keywords_spec ["привет мир мир"] 3 50).2.1 ("мир", 2) (by decide)

/-- C8: every entry of the technical-term table is a vocabulary term
with a positive count equal to its whole-word count in the lowered
joined text; the table is sorted descending by count; runs whose texts
agree after lowercasing produce identical tables (case-insensitivity);
and on text containing `SCADA` and `scada123` the term `scada` counts
exactly one match. -/
theorem c8_tech_mentions_spec :
    (∀ pts cts : List String,
      (tech_mentions pts cts).Pairwise (fun a b => b.2 ≤ a.2)
      ∧ ∀ p ∈ tech_mentions pts cts,
          p.1 ∈ tech_terms ∧ 0 < p.2 ∧ p.2 = countMentions p.1 (topicText pts cts))
    ∧ (∀ pts cts pts' cts' : List String,
        pts.map lowerText = pts'.map lowerText → cts.map lowerText = cts'.map lowerText →
        tech_mentions pts cts = tech_mentions pts' cts')
    ∧ tech_mentions ["Using SCADA here"] ["scada123 rocks"] = [("scada", 1)] := by
  refine ⟨?_, ?_, by decide⟩
  · intro pts cts
    constructor
    · exact List.Pairwise.sublist (List.take_sublist _ _) (sortDesc_pairwise _)
    · intro p hp
      have hp1 := List.take_subset _ _ hp
      have hp2 := (mem_sortDesc _ _).mp hp1
      obtain ⟨hmap, hpos⟩ := List.mem_filter.mp hp2
      rcases List.mem_map.mp hmap with ⟨t, ht, rfl⟩
      exact ⟨ht, by simpa using hpos, rfl⟩
  · intro pts cts pts' cts' hp hc
    unfold tech_mentions
    rw [topicText_lower_eq, topicText_lower_eq, hp, hc]

/-- C8 witness: the membership facts at the concrete `scada` entry. -/
theorem c8_tech_mentions_spec_witness :
    ("scada" : String) ∈ tech_terms ∧ 0 < 1
      ∧ 1 = countMentions "scada" (topicText ["Using SCADA here"] ["scada123 rocks"]) :=
  (c8_tech_mentions_spec.1 ["Using SCADA here"] ["scada123 rocks"]).2 ("scada", 1) (by decide)

/-- C5: when the service answers the first feed fetch with a nonempty
batch and the next fetch fails at the transport level, the run ends
after that failing fetch and returns the partial result accumulated so
far: exactly the retained part of the first batch, with the period
counter consistent, rather than discarding the run or raising. -/
theorem c5_partial_result_on_failure (batch1 : List Post)
    (gi : ApiOutcome (List GroupInfo)) (cf : Int → Nat → Nat → ApiOutcome CommentsPayload)
    (gid : String) (maxPosts : Nat) (st en : Option Int)
    (hgid : needsResolution gid = false) (hne : batch1 ≠ [])
    (hcont : ((filterBatch st en batch1).1.isEmpty && otruthy st) = false)
    (hmp : batch1.length < maxPosts) :
    (parse_group_data (failAfterFirstEnv batch1 gi cf) gid maxPosts false st en).result.posts
        = (filterBatch st en batch1).1
    ∧ (parse_group_data (failAfterFirstEnv batch1 gi cf)
          gid maxPosts false st en).result.postsInPeriod
        = (filterBatch st en batch1).1.length
    ∧ (parse_group_data (failAfterFirstEnv batch1 gi cf) gid maxPosts false st en).wallBatches
        = [batch1, []] := by
  have hlen : 1 ≤ batch1.length := by
    cases batch1 with
    | nil => exact absurd rfl hne
    | cons a l => simp
  obtain ⟨k, rfl⟩ : ∃ k, maxPosts = k + 2 := ⟨maxPosts - 2, by omega⟩
  have hbne : batch1.isEmpty = false := by
    cases batch1 with
    | nil => exact absurd rfl hne
    | cons a l => rfl
  have hlz : ¬ (batch1.length = 0) := by omega
  have h1 := collect_step_continue (failAfterFirstEnv batch1 gi cf) gid (k + 2) st en (k + 2)
    ⟨[], 0, 0, 0, 0, []⟩ (by simp)
    (by simp [get_wall_posts, resolveGroup, hgid, failAfterFirstEnv, make_request, hbne])
    (by simpa [get_wall_posts, resolveGroup, hgid, failAfterFirstEnv, make_request]
      using hcont)
  have hS1 : nextState (failAfterFirstEnv batch1 gi cf) gid (k + 2) st en ⟨[], 0, 0, 0, 0, []⟩
      = ⟨(filterBatch st en batch1).1, batch1.length, batch1.length,
         (filterBatch st en batch1).2.1, 0, [batch1]⟩ := by
    simp [nextState, get_wall_posts, resolveGroup, hgid, failAfterFirstEnv, make_request]
  have h2 := collect_step_stop (failAfterFirstEnv batch1 gi cf) gid (k + 2) st en (k + 1)
    ⟨(filterBatch st en batch1).1, batch1.length, batch1.length,
     (filterBatch st en batch1).2.1, 0, [batch1]⟩ (by simpa using hmp)
    (by simp [get_wall_posts, resolveGroup, hgid, failAfterFirstEnv, make_request, hlz])
  have hrun : collectPostsFuel (failAfterFirstEnv batch1 gi cf) gid (k + 2) st en (k + 2 + 1)
      ⟨[], 0, 0, 0, 0, []⟩
      = stopState (failAfterFirstEnv batch1 gi cf) gid (k + 2)
          ⟨(filterBatch st en batch1).1, batch1.length, batch1.length,
           (filterBatch st en batch1).2.1, 0, [batch1]⟩ := by
    rw [h1, hS1]
    exact h2
  have hf2 : (get_wall_posts (failAfterFirstEnv batch1 gi cf) gid
      (min 100 (k + 2 - batch1.length)) batch1.length).1 = [] := by
    simp [get_wall_posts, resolveGroup, hgid, failAfterFirstEnv, make_request, hlz]
  refine ⟨?_, ?_, ?_⟩
  · simp only [parse_group_data]
    rw [hrun]
    rfl
  · simp only [parse_group_data]
    rw [hrun]
    exact filterBatch_pip st en batch1
  · simp only [parse_group_data]
    rw [hrun, stopState_batches]
    rw [show (⟨(filterBatch st en batch1).1, batch1.length, batch1.length,
      (filterBatch st en batch1).2.1, 0, [batch1]⟩ : LoopState).batches = [batch1] from rfl]
    rw [show (⟨(filterBatch st en batch1).1, batch1.length, batch1.length,
      (filterBatch st en batch1).2.1, 0, [batch1]⟩ : LoopState).postsCollected
      = batch1.length from rfl]
    rw [show (⟨(filterBatch st en batch1).1, batch1.length, batch1.length,
      (filterBatch st en batch1).2.1, 0, [batch1]⟩ : LoopState).offset
      = batch1.length from rfl]
    rw [hf2]
    rfl

/-- C5 witness: the partial-result behaviour at a concrete one-post
batch followed by a transport failure. -/
theorem c5_partial_result_on_failure_witness :
    (parse_group_data (failAfterFirstEnv [postA] (.success (some [⟨some 1⟩]))
          (fun _ _ _ => .success (some ⟨some []⟩))) "1" 10 false none none).result.posts
        = (filterBatch none none [postA]).1
    ∧ (parse_group_data (failAfterFirstEnv [postA] (.success (some [⟨some 1⟩]))
          (fun _ _ _ => .success (some ⟨some []⟩))) "1" 10 false none none).result.postsInPeriod
        = (filterBatch none none [postA]).1.length
    ∧ (parse_group_data (failAfterFirstEnv [postA] (.success (some [⟨some 1⟩]))
          (fun _ _ _ => .success (some ⟨some []⟩))) "1" 10 false none none).wallBatches
        = [[postA], []] :=
  c5_partial_result_on_failure [postA] (.success (some [⟨some 1⟩]))
    (fun _ _ _ => .success (some ⟨some []⟩)) "1" 10 none none (by decide) (by decide)
    (by decide) (by decide)

end VK
